import Mathlib

/-!
Verification of prototypes/tech_tree_visualizer.py.

The script reads two tab-delimited tables (a tech tree and a parts catalog),
joins parts to tech nodes by the Tech Node foreign key, and builds a graph
description for an external renderer.  The definitions below are a shallow
embedding of that script: Python dicts become association lists with
first-match lookup, exceptions become Except, and the external world
(urllib fetch, the filesystem) becomes an explicit environment record.
-/

deriving instance DecidableEq for Except

/-- Characters stripped by the CPython str.strip method (ASCII whitespace). -/
def pyWhitespace (c : Char) : Bool :=
  c == ' ' || c == Char.ofNat 9 || c == Char.ofNat 10 || c == Char.ofNat 13 ||
    c == Char.ofNat 11 || c == Char.ofNat 12

/-- Embedding of the CPython str.strip method: drop leading and trailing
whitespace. -/
def pyStrip (s : String) : String :=
  String.mk (((s.toList.dropWhile pyWhitespace).reverse.dropWhile pyWhitespace).reverse)

/-- Split a character list on a separator character, keeping empty pieces,
exactly as the CPython str.split method with an explicit separator does. -/
def splitOnChar (c : Char) : List Char → List (List Char)
  | [] => [[]]
  | d :: rest =>
    match splitOnChar c rest with
    | [] => if d == c then [[], []] else [[d]]
    | piece :: more => if d == c then [] :: piece :: more else (d :: piece) :: more

/-- Embedding of the CPython split on a comma, as used for the Prerequisites
column. -/
def pySplitComma (s : String) : List String :=
  (splitOnChar ',' s.toList).map (fun cs => String.mk cs)

/-- Numeric value of a list of decimal digit characters. -/
def digitsToNat (ds : List Char) : Nat :=
  ds.foldl (fun a c => a * 10 + (c.toNat - 48)) 0

/-- Embedding of the CPython int constructor on a string: surrounding
whitespace is stripped, an optional sign is followed by at least one decimal
digit.  (Underscore digit grouping and non-ASCII digits, which the script
never relies on, are not modelled.)  A non-numeric string raises ValueError,
modelled as an error value. -/
def pyInt (s : String) : Except String Int :=
  match (pyStrip s).toList with
  | [] => Except.error ("invalid literal for int: " ++ s)
  | c :: rest =>
    if c == '-' then
      if !rest.isEmpty && rest.all Char.isDigit then Except.ok (-(digitsToNat rest : Int))
      else Except.error ("invalid literal for int: " ++ s)
    else if c == '+' then
      if !rest.isEmpty && rest.all Char.isDigit then Except.ok ((digitsToNat rest : Int))
      else Except.error ("invalid literal for int: " ++ s)
    else
      if (c :: rest).all Char.isDigit then Except.ok ((digitsToNat (c :: rest) : Int))
      else Except.error ("invalid literal for int: " ++ s)

/-- Embedding of html.escape with its default quote=True: the five special
characters are replaced by entities (written with character codes 34 and 39
for the two quote characters). -/
def html_escape (s : String) : String :=
  String.join (s.toList.map (fun c =>
    if c == '&' then "&amp;"
    else if c == '<' then "&lt;"
    else if c == '>' then "&gt;"
    else if c == Char.ofNat 34 then "&quot;"
    else if c == Char.ofNat 39 then "&#x27;"
    else String.singleton c))

/-- Is an Except value a success. -/
def exceptIsOk {ε α : Type} : Except ε α → Bool
  | Except.ok _ => true
  | Except.error _ => false

/-- Forget the error of an Except value. -/
def exceptToOption {ε α : Type} : Except ε α → Option α
  | Except.ok a => some a
  | Except.error _ => none

/-- A record of the parts catalog, as built by read_parts_catalog: the
tech_node field is Option String because the script stores Python None for a
part whose Tech Node cell is empty. -/
structure PartItem where
  category : String
  name : String
  tech_node : Option String
  size : String
deriving DecidableEq

/-- A record of the tech tree, as built by read_tech_tree. -/
structure TechNode where
  tier : Int
  description : String
  prerequisites : List String
  parts : List PartItem
deriving DecidableEq

/-- A row of the tech-tree table (raw cell strings of the four columns the
script reads). -/
structure TechRow where
  node : String
  tier : String
  description : String
  prerequisites : String
deriving DecidableEq

/-- A row of the parts-catalog table (raw cell strings of the four columns the
script reads). -/
structure PartRow where
  category : String
  name : String
  techNode : String
  size : String
deriving DecidableEq

/-- Python dicts keyed by strings are modelled as association lists in
insertion order with first-match lookup. -/
abbrev TechDict := List (String × TechNode)

/-- Dict lookup (first matching key). -/
def dictGet {α : Type} (m : List (String × α)) (k : String) : Option α :=
  match m with
  | [] => none
  | kv :: rest => if kv.1 == k then some kv.2 else dictGet rest k

/-- Dict membership test, as the Python in operator on a dict. -/
def containsKey {α : Type} (m : List (String × α)) (k : String) : Bool :=
  match m with
  | [] => false
  | kv :: rest => kv.1 == k || containsKey rest k

/-- Dict assignment: replace the value at an existing key in place, else
append a new entry, as Python dict assignment does. -/
def dictInsert {α : Type} (m : List (String × α)) (k : String) (v : α) : List (String × α) :=
  match m with
  | [] => [(k, v)]
  | kv :: rest => if kv.1 == k then (k, v) :: rest else kv :: dictInsert rest k v

/-- In-place update of the value at an existing key (no effect when the key is
absent), modelling mutation of a dict entry. -/
def dictModify {α : Type} (m : List (String × α)) (k : String) (f : α → α) : List (String × α) :=
  match m with
  | [] => []
  | kv :: rest => if kv.1 == k then (kv.1, f kv.2) :: rest else kv :: dictModify rest k f

/-- Append one part to the parts list of a tech node, as the append call in
assign_parts_to_nodes. -/
def addPart (p : PartItem) (n : TechNode) : TechNode :=
  ⟨n.tier, n.description, n.prerequisites, n.parts ++ [p]⟩

/-- The statement tech_nodes[k].parts.append(p). -/
def appendPart (tn : TechDict) (k : String) (p : PartItem) : TechDict :=
  dictModify tn k (addPart p)

/-- Concatenation of the parts lists of all nodes of the dict, in dict order. -/
def allParts (tn : TechDict) : List PartItem :=
  match tn with
  | [] => []
  | kv :: rest => kv.2.parts ++ allParts rest

/-- The list comprehension for the prerequisites field in read_tech_tree:
split the cell on commas, and for each piece whose stripped form is nonempty
(Python truthiness of a string) keep that stripped form. -/
def parsePrereqs (s : String) : List String :=
  (pySplitComma s).filterMap (fun p => if pyStrip p == "" then none else some (pyStrip p))

/-- The dict literal read_tech_tree stores for one row, given the parsed
tier. -/
def rowNode (r : TechRow) (t : Int) : TechNode :=
  ⟨t, r.description, parsePrereqs r.prerequisites, []⟩

/-- The row loop of read_tech_tree: for each row parse the Tier cell with
int (a failure raises and aborts the whole read) and assign the node record
into the dict under the Node cell. -/
def tech_rows_loop (acc : TechDict) : List TechRow → Except String TechDict
  | [] => Except.ok acc
  | r :: rest =>
    match pyInt r.tier with
    | Except.error e => Except.error e
    | Except.ok t => tech_rows_loop (dictInsert acc r.node (rowNode r t)) rest

/-- The dict literal read_parts_catalog appends for one row: the Tech Node
cell is stripped when the raw cell is truthy (nonempty), and None is stored
for an empty cell. -/
def partOfRow (r : PartRow) : PartItem :=
  ⟨r.category, r.name, if r.techNode == "" then none else some (pyStrip r.techNode), r.size⟩

/-- The row loop of read_parts_catalog. -/
def parts_rows_loop (rows : List PartRow) : List PartItem :=
  rows.map partOfRow

/-- Lines of a text as the csv module sees them when reading from a string:
split on newline, dropping a trailing carriage return of each line. -/
def splitLines (text : String) : List String :=
  (text.splitOn "\n").map (fun l => if l.endsWith "\r" then l.dropRight 1 else l)

/-- Model of csv.DictReader with tab delimiter on unquoted cells (the data
format in use): the first nonempty line is the header, later nonempty lines
are data rows (DictReader skips blank rows), cells are split on tabs. -/
def tsvTable (text : String) : List String × List (List String) :=
  match (splitLines text).filter (fun l => !(l == "")) with
  | [] => ([], [])
  | h :: rest => (h.splitOn "\t", rest.map (fun l => l.splitOn "\t"))

/-- Position of a column name in the header. -/
def findIndex (col : String) : List String → Option Nat
  | [] => none
  | h :: rest => if h == col then some 0 else (findIndex col rest).map (fun i => i + 1)

/-- Cell lookup row[col] of a DictReader row: a column absent from the header
raises KeyError; a short row is filled with the empty cell (CPython fills
None, which the script treats identically for the properties proved here:
both are falsy and not integer-parsable). -/
def rowField (header fields : List String) (col : String) : Except String String :=
  match findIndex col header with
  | some i => Except.ok (fields.getD i "")
  | none => Except.error ("KeyError: " ++ col)

/-- The four cells read_tech_tree reads from a row, in source access order. -/
def techRowOfFields (header fields : List String) : Except String TechRow := do
  let node ← rowField header fields "Node"
  let tier ← rowField header fields "Tier"
  let description ← rowField header fields "Description"
  let prereqs ← rowField header fields "Prerequisites"
  pure ⟨node, tier, description, prereqs⟩

/-- The four cells read_parts_catalog reads from a row, in source access
order. -/
def partRowOfFields (header fields : List String) : Except String PartRow := do
  let category ← rowField header fields "Category"
  let name ← rowField header fields "Name"
  let technode ← rowField header fields "Tech Node"
  let size ← rowField header fields "Size"
  pure ⟨category, name, technode, size⟩

/-- Rows of the tech-tree table of a text. -/
def techRowsOfText (text : String) : Except String (List TechRow) :=
  match tsvTable text with
  | (header, dataRows) => dataRows.mapM (techRowOfFields header)

/-- Rows of the parts-catalog table of a text. -/
def partRowsOfText (text : String) : Except String (List PartRow) :=
  match tsvTable text with
  | (header, dataRows) => dataRows.mapM (partRowOfFields header)

/-- read_tech_tree applied to text already resolved from the data source. -/
def read_tech_tree_text (text : String) : Except String TechDict :=
  match techRowsOfText text with
  | Except.error e => Except.error e
  | Except.ok rows => tech_rows_loop [] rows

/-- read_parts_catalog applied to text already resolved from the data
source. -/
def read_parts_text (text : String) : Except String (List PartItem) :=
  match partRowsOfText text with
  | Except.error e => Except.error e
  | Except.ok rows => Except.ok (parts_rows_loop rows)

/-- The external world of the script: fetch models fetch_tsv_from_url (an
error models a raising fetch), files models the filesystem (none models the
FileNotFoundError branch of open). -/
structure WorldEnv where
  fetch : String → Except String String
  files : String → Option String

/-- read_tech_tree: the data source is fetched when it starts with the
http or https scheme, else read from an existing file of that name, else the
string itself is parsed as TSV data. -/
def read_tech_tree (env : WorldEnv) (data_source : String) : Except String TechDict :=
  if data_source.startsWith "http://" || data_source.startsWith "https://" then
    match env.fetch data_source with
    | Except.error e => Except.error e
    | Except.ok tsv_data => read_tech_tree_text tsv_data
  else
    match env.files data_source with
    | some contents => read_tech_tree_text contents
    | none => read_tech_tree_text data_source

/-- read_parts_catalog, with the same three-way source resolution as
read_tech_tree. -/
def read_parts_catalog (env : WorldEnv) (data_source : String) : Except String (List PartItem) :=
  if data_source.startsWith "http://" || data_source.startsWith "https://" then
    match env.fetch data_source with
    | Except.error e => Except.error e
    | Except.ok tsv_data => read_parts_text tsv_data
  else
    match env.files data_source with
    | some contents => read_parts_text contents
    | none => read_parts_text data_source

/-- Written from the words of the specification (section 4.1, resolution
order): (a) a descriptor with a recognized remote scheme prefix is fetched;
(b) else the contents of an existing local file of that name are used;
(c) else the descriptor itself is the delimited text.  This definition
follows the specification text and is compared with the loaders above. -/
def spec_resolve (env : WorldEnv) (data_source : String) : Except String String :=
  if data_source.startsWith "http://" || data_source.startsWith "https://" then
    env.fetch data_source
  else
    match env.files data_source with
    | some contents => Except.ok contents
    | none => Except.ok data_source

/-- The condition of assign_parts_to_nodes for one part, as a Boolean:
part.tech_node is truthy (not None and nonempty) and a key of the dict. -/
def assignedB (tn : TechDict) (p : PartItem) : Bool :=
  match p.tech_node with
  | some s => !(s == "") && containsKey tn s
  | none => false

/-- One iteration of the loop of assign_parts_to_nodes over the state
(tech-node dict, unassigned list). -/
def assignStep (st : TechDict × List PartItem) (part : PartItem) : TechDict × List PartItem :=
  match part.tech_node with
  | some s =>
    if !(s == "") && containsKey st.1 s then (appendPart st.1 s part, st.2)
    else (st.1, st.2 ++ [part])
  | none => (st.1, st.2 ++ [part])

/-- assign_parts_to_nodes: the dict is mutated by appending each part with a
truthy Tech Node reference that names an existing node, every other part is
appended to the returned unassigned list.  The mutated dict and the returned
list form the result pair. -/
def assign_parts_to_nodes (tech_nodes : TechDict) (parts : List PartItem) : TechDict × List PartItem :=
  parts.foldl assignStep (tech_nodes, [])

/-- Concatenation of a list of lists. -/
def concatAll {α : Type} : List (List α) → List α
  | [] => []
  | l :: rest => l ++ concatAll rest

/-- The edges one node contributes in create_tech_tree_graph: one edge per
prerequisite name that is a key of the dict, dangling names are skipped. -/
def node_prereq_edges (tech_nodes : TechDict) (node_name : String) (prereqs : List String) :
    List (String × String) :=
  (prereqs.filter (fun p => containsKey tech_nodes p)).map (fun p => (p, node_name))

/-- The edge loop of create_tech_tree_graph. -/
def create_tech_tree_edges (tech_nodes : TechDict) : List (String × String) :=
  concatAll (tech_nodes.map (fun kv => node_prereq_edges tech_nodes kv.1 kv.2.prerequisites))

/-- The per-part label fragment of the per-node label path of
create_tech_tree_graph: the escaped size in parentheses is appended only when
the size cell is truthy (nonempty). -/
def node_part_label (part : PartItem) : String :=
  let part_name := html_escape part.name
  let part_size := if part.size == "" then "" else html_escape part.size
  let label := "<BR/>  • " ++ part_name
  if part_size == "" then label else label ++ " (" ++ part_size ++ ")"

/-- The whole label of one tech node in create_tech_tree_graph. -/
def node_label (node_name : String) (node_parts : List PartItem) : String :=
  let base := "<B>" ++ html_escape node_name ++ "</B>"
  let l :=
    if node_parts.isEmpty then base
    else base ++ "<BR/><FONT POINT-SIZE=\"9\">" ++
      String.join (node_parts.map node_part_label) ++ "</FONT>"
  "<" ++ l ++ ">"

/-- The per-part label line of the unassigned-cluster path of
create_tech_tree_graph.  The source line interpolates the name size_str,
which is bound nowhere in the function, so CPython raises NameError before
the line is built; the following condition would additionally call a method
named trim, which does not exist on str.  The embedding therefore yields the
error of the first failing name lookup. -/
def unassigned_part_label (part : PartItem) : Except String String :=
  Except.error "NameError: name size_str is not defined"

/-- The grouping of unassigned parts by category in create_tech_tree_graph
(a dict in first-seen category order, parts appended in input order). -/
def groupByCategory (unassigned_parts : List PartItem) : List (String × List PartItem) :=
  unassigned_parts.foldl
    (fun acc p =>
      if containsKey acc p.category then dictModify acc p.category (fun l => l ++ [p])
      else acc ++ [(p.category, [p])])
    []

/-- Code-point comparison of character lists, as CPython string comparison. -/
def pyStrLeList : List Char → List Char → Bool
  | [], _ => true
  | _ :: _, [] => false
  | c :: cs, d :: ds =>
    if c.toNat < d.toNat then true
    else if d.toNat < c.toNat then false
    else pyStrLeList cs ds

/-- Code-point comparison of strings. -/
def pyStrLe (a b : String) : Bool :=
  pyStrLeList a.toList b.toList

/-- Insertion into a sorted list of strings. -/
def insertSorted (x : String) : List String → List String
  | [] => [x]
  | y :: ys => if pyStrLe x y then x :: y :: ys else y :: insertSorted x ys

/-- Model of the CPython sorted builtin on strings. -/
def pySorted (l : List String) : List String :=
  l.foldr insertSorted []

/-- The category header line in the unassigned cluster. -/
def category_header (category : String) : String :=
  "<B>" ++ html_escape category ++ ":</B>"

/-- The label_parts loop of the unassigned cluster: categories in sorted
order, one header line per category then one line per part (each part line
raises, see unassigned_part_label). -/
def cluster_label_lines (by_category : List (String × List PartItem)) : Except String (List String) :=
  (pySorted (by_category.map (fun kv => kv.1))).foldlM
    (fun acc cat => do
      let ps := (dictGet by_category cat).getD []
      let lines ← ps.mapM unassigned_part_label
      pure ((acc ++ [category_header cat]) ++ lines))
    []

/-- The node/edge/label description handed to the graph renderer. -/
structure GraphModel where
  nodes : List (String × String)
  edges : List (String × String)
  cluster : Option String

/-- create_tech_tree_graph: one labelled visual node per tech node, the edge
list of valid prerequisite pairs, and, when unassigned parts exist, the
cluster label (whose construction raises, see unassigned_part_label). -/
def create_tech_tree_graph (tech_nodes : TechDict) (unassigned_parts : List PartItem) :
    Except String GraphModel := do
  let nodes := tech_nodes.map (fun kv => (kv.1, node_label kv.1 kv.2.parts))
  let edges := create_tech_tree_edges tech_nodes
  if unassigned_parts.isEmpty then
    pure ⟨nodes, edges, none⟩
  else do
    let lines ← cluster_label_lines (groupByCategory unassigned_parts)
    let label := "<FONT POINT-SIZE=\"10\">" ++ String.intercalate "<BR/>" lines ++ "</FONT>"
    pure ⟨nodes, edges, some ("<" ++ label ++ ">")⟩

/-- The pipeline of main: read both tables, assign parts, build the graph
description; the output files are written only from a successful result. -/
def tech_tree_main (env : WorldEnv) (tech_source parts_source : String) :
    Except String GraphModel :=
  match read_tech_tree env tech_source with
  | Except.error e => Except.error e
  | Except.ok tech_nodes =>
    match read_parts_catalog env parts_source with
    | Except.error e => Except.error e
    | Except.ok parts =>
      match assign_parts_to_nodes tech_nodes parts with
      | (tn2, unassigned) => create_tech_tree_graph tn2 unassigned

/-- The last row of the list, in input order, whose Node cell is the given
name. -/
def lastRowNamed : List TechRow → String → Option TechRow
  | [], _ => none
  | r :: rest, name =>
    match lastRowNamed rest name with
    | some r2 => some r2
    | none => if r.node == name then some r else none

/-- The frame relation of one entry of the tech-node dict across
assign_parts_to_nodes: key, tier, description and prerequisites are
unchanged, and the parts list is only extended by records of the input parts
list. -/
def FrameRel (parts : List PartItem) (a b : String × TechNode) : Prop :=
  a.1 = b.1 ∧ a.2.tier = b.2.tier ∧ a.2.description = b.2.description ∧
    a.2.prerequisites = b.2.prerequisites ∧
    ∃ extra, b.2.parts = a.2.parts ++ extra ∧ ∀ q ∈ extra, q ∈ parts

/-- Extend the parts list of a tech node by a list of parts. -/
def addParts (ps : List PartItem) (n : TechNode) : TechNode :=
  ⟨n.tier, n.description, n.prerequisites, n.parts ++ ps⟩

lemma dictGet_dictInsert {α : Type} (m : List (String × α)) (k name : String) (v : α) :
    dictGet (dictInsert m k v) name = if name = k then some v else dictGet m name := by
  induction m with
  | nil =>
    by_cases h : name = k
    · simp [dictInsert, dictGet, h]
    · simp [dictInsert, dictGet, h, beq_iff_eq, Ne.symm h]
  | cons kv rest ih =>
    by_cases hk : kv.1 = k
    · by_cases hn : name = k
      · simp [dictInsert, dictGet, hk, hn]
      · simp [dictInsert, dictGet, hk, hn, beq_iff_eq, Ne.symm hn]
    · by_cases hn : kv.1 = name
      · have hnk : ¬ name = k := fun h => hk (hn.trans h)
        simp [dictInsert, dictGet, hk, hn, hnk, beq_iff_eq]
      · simp [dictInsert, dictGet, hk, hn, beq_iff_eq, ih]

lemma mem_dictInsert {α : Type} (m : List (String × α)) (k : String) (v : α)
    (kv : String × α) (h : kv ∈ dictInsert m k v) : kv = (k, v) ∨ kv ∈ m := by
  induction m with
  | nil => simpa [dictInsert] using h
  | cons a rest ih =>
    by_cases ha : a.1 = k
    · rcases (by simpa [dictInsert, ha, beq_iff_eq] using h) with h1 | h1
      · exact Or.inl h1
      · exact Or.inr (List.mem_cons_of_mem a h1)
    · rcases (by simpa [dictInsert, ha, beq_iff_eq] using h) with h1 | h1
      · exact Or.inr (by simp [h1])
      · rcases ih h1 with h2 | h2
        · exact Or.inl h2
        · exact Or.inr (List.mem_cons_of_mem a h2)

lemma containsKey_dictModify {α : Type} (m : List (String × α)) (k s : String) (f : α → α) :
    containsKey (dictModify m k f) s = containsKey m s := by
  induction m with
  | nil => simp [dictModify]
  | cons kv rest ih =>
    by_cases hk : kv.1 = k <;> simp [dictModify, containsKey, hk, beq_iff_eq, ih]

lemma dictGet_dictModify {α : Type} (m : List (String × α)) (k s : String) (f : α → α) :
    dictGet (dictModify m k f) s =
      if s = k then (dictGet m k).map f else dictGet m s := by
  induction m with
  | nil => by_cases h : s = k <;> simp [dictModify, dictGet, h]
  | cons kv rest ih =>
    by_cases hk : kv.1 = k
    · by_cases hs : s = k
      · simp [dictModify, dictGet, hk, hs]
      · simp [dictModify, dictGet, hk, hs, beq_iff_eq, Ne.symm hs]
    · by_cases hs : kv.1 = s
      · have hsk : ¬ s = k := fun h => hk (hs.trans h)
        simp [dictModify, dictGet, hk, hs, hsk, beq_iff_eq]
      · simp [dictModify, dictGet, hk, hs, beq_iff_eq, ih]

lemma tech_rows_loop_error (rows : List TechRow) :
    ∀ acc, ∀ r ∈ rows, exceptIsOk (pyInt r.tier) = false →
      ∃ e, tech_rows_loop acc rows = Except.error e := by
  induction rows with
  | nil => intro acc r hr; exact absurd hr (List.not_mem_nil r)
  | cons a rest ih =>
    intro acc r hr hbad
    rcases List.mem_cons.mp hr with rfl | hr2
    · cases hp : pyInt r.tier with
      | error e => exact ⟨e, by simp [tech_rows_loop, hp]⟩
      | ok t => rw [hp] at hbad; simp [exceptIsOk] at hbad
    · cases hp : pyInt a.tier with
      | error e => exact ⟨e, by simp [tech_rows_loop, hp]⟩
      | ok t =>
        rcases ih (dictInsert acc a.node (rowNode a t)) r hr2 hbad with ⟨e, he⟩
        exact ⟨e, by simp [tech_rows_loop, hp, he]⟩

lemma tech_rows_loop_ok (rows : List TechRow) :
    ∀ acc, (∀ r ∈ rows, exceptIsOk (pyInt r.tier) = true) →
      ∃ tn, tech_rows_loop acc rows = Except.ok tn := by
  induction rows with
  | nil => intro acc _; exact ⟨acc, rfl⟩
  | cons a rest ih =>
    intro acc hall
    cases hp : pyInt a.tier with
    | error e =>
      have := hall a (List.mem_cons_self a rest)
      rw [hp] at this; simp [exceptIsOk] at this
    | ok t =>
      rcases ih (dictInsert acc a.node (rowNode a t))
        (fun r hr => hall r (List.mem_cons_of_mem a hr)) with ⟨tn, htn⟩
      exact ⟨tn, by simp [tech_rows_loop, hp, htn]⟩

lemma tech_rows_loop_get (rows : List TechRow) :
    ∀ acc tn, tech_rows_loop acc rows = Except.ok tn → ∀ name,
      dictGet tn name =
        (match lastRowNamed rows name with
          | some r => (exceptToOption (pyInt r.tier)).map (rowNode r)
          | none => dictGet acc name) := by
  induction rows with
  | nil =>
    intro acc tn h name
    simp [tech_rows_loop] at h
    simp [lastRowNamed, h]
  | cons a rest ih =>
    intro acc tn h name
    cases hp : pyInt a.tier with
    | error e => simp [tech_rows_loop, hp] at h
    | ok t =>
      rw [tech_rows_loop, hp] at h
      have := ih (dictInsert acc a.node (rowNode a t)) tn h name
      cases hl : lastRowNamed rest name with
      | some r2 => simp [lastRowNamed, hl, this]
      | none =>
        rw [hl] at this
        by_cases hn : a.node = name
        · simp [lastRowNamed, hl, hn, beq_iff_eq, this, dictGet_dictInsert,
            hp, exceptToOption]
        · have hn2 : ¬ name = a.node := fun h2 => hn h2.symm
          simp [lastRowNamed, hl, hn, hn2, beq_iff_eq, this, dictGet_dictInsert]

lemma tech_rows_loop_mem (rows : List TechRow) :
    ∀ acc tn, tech_rows_loop acc rows = Except.ok tn → ∀ kv, kv ∈ tn →
      kv ∈ acc ∨ ∃ r t, r ∈ rows ∧ pyInt r.tier = Except.ok t ∧ kv = (r.node, rowNode r t) := by
  induction rows with
  | nil =>
    intro acc tn h kv hkv
    simp [tech_rows_loop] at h
    exact Or.inl (h ▸ hkv)
  | cons a rest ih =>
    intro acc tn h kv hkv
    cases hp : pyInt a.tier with
    | error e => simp [tech_rows_loop, hp] at h
    | ok t =>
      rw [tech_rows_loop, hp] at h
      rcases ih (dictInsert acc a.node (rowNode a t)) tn h kv hkv with h1 | ⟨r, t2, hr, ht2, hkv2⟩
      · rcases mem_dictInsert acc a.node (rowNode a t) kv h1 with h2 | h2
        · exact Or.inr ⟨a, t, List.mem_cons_self a rest, hp, h2⟩
        · exact Or.inl h2
      · exact Or.inr ⟨r, t2, List.mem_cons_of_mem a hr, ht2, hkv2⟩

lemma filterMap_strip_eq (l : List String) :
    l.filterMap (fun p => if pyStrip p == "" then none else some (pyStrip p)) =
      (l.map pyStrip).filter (fun p => !(p == "")) := by
  induction l with
  | nil => rfl
  | cons a rest ih =>
    by_cases h : pyStrip a = ""
    · have hb : (pyStrip a == "") = true := beq_iff_eq.mpr h
      simp only [List.filterMap_cons, List.map_cons, List.filter_cons, hb,
        Bool.not_true, if_true]
      exact ih
    · have hb : (pyStrip a == "") = false := by
        simpa [beq_iff_eq] using h
      simp only [List.filterMap_cons, List.map_cons, List.filter_cons, hb,
        Bool.not_false, if_false]
      simp
      simpa using ih

lemma mem_concatAll {α : Type} (ls : List (List α)) (a : α) :
    a ∈ concatAll ls ↔ ∃ l, l ∈ ls ∧ a ∈ l := by
  induction ls with
  | nil => simp [concatAll]
  | cons l rest ih =>
    simp [concatAll, List.mem_append, ih]

/-- C5: for every row of the tech-tree table, read_tech_tree parses the Tier
cell as an integer; a row whose Tier cell is not integer-parsable makes the
row loop raise a format error, and main, which runs the whole pipeline before
writing any output, propagates that error, so the run aborts before any
output is written. -/
theorem read_tech_tree_tier_format_error :
    (∀ rows : List TechRow, ∀ r ∈ rows, exceptIsOk (pyInt r.tier) = false →
      ∃ e, tech_rows_loop [] rows = Except.error e) ∧
    (∀ env tech_source parts_source e, read_tech_tree env tech_source = Except.error e →
      tech_tree_main env tech_source parts_source = Except.error e) := by
  constructor
  · intro rows r hr hbad
    exact tech_rows_loop_error rows [] r hr hbad
  · intro env ts ps e h
    unfold tech_tree_main
    rw [h]

/-- Witness for C5: the row with Tier cell abc is rejected. -/
theorem read_tech_tree_tier_format_error_witness :
    exceptIsOk (pyInt (⟨"A", "abc", "d", ""⟩ : TechRow).tier) = false ∧
    ∃ e, tech_rows_loop [] [(⟨"A", "abc", "d", ""⟩ : TechRow)] = Except.error e :=
  ⟨by decide,
   read_tech_tree_tier_format_error.1 [⟨"A", "abc", "d", ""⟩] ⟨"A", "abc", "d", ""⟩
     (by decide) (by decide)⟩

/-- C8: for every row of the tech-tree table, the stored prerequisites list
is obtained by splitting the Prerequisites cell on commas, stripping each
piece, and discarding pieces that strip to empty, preserving the order of the
remaining pieces. -/
theorem read_tech_tree_prerequisites_parsing :
    (∀ s, parsePrereqs s = ((pySplitComma s).map pyStrip).filter (fun p => !(p == ""))) ∧
    (∀ rows tn, tech_rows_loop [] rows = Except.ok tn → ∀ kv ∈ tn,
      ∃ r, r ∈ rows ∧ kv.1 = r.node ∧
        kv.2.prerequisites =
          ((pySplitComma r.prerequisites).map pyStrip).filter (fun p => !(p == ""))) := by
  constructor
  · intro s
    simpa [parsePrereqs] using filterMap_strip_eq (pySplitComma s)
  · intro rows tn h kv hkv
    rcases tech_rows_loop_mem rows [] tn h kv hkv with h1 | ⟨r, t, hr, ht, rfl⟩
    · simp at h1
    · refine ⟨r, hr, rfl, ?_⟩
      simpa [rowNode, parsePrereqs] using filterMap_strip_eq (pySplitComma r.prerequisites)

/-- Witness for C8 on a row whose Prerequisites cell holds padded and empty
pieces. -/
theorem read_tech_tree_prerequisites_parsing_witness :
    parsePrereqs " B , ,C " = ((pySplitComma " B , ,C ").map pyStrip).filter (fun p => !(p == "")) ∧
    ∃ r, r ∈ [(⟨"A", "0", "d", " B , ,C "⟩ : TechRow)] ∧
      (("A", (⟨0, "d", ["B", "C"], []⟩ : TechNode))).1 = r.node ∧
      (("A", (⟨0, "d", ["B", "C"], []⟩ : TechNode))).2.prerequisites =
        ((pySplitComma r.prerequisites).map pyStrip).filter (fun p => !(p == "")) :=
  ⟨read_tech_tree_prerequisites_parsing.1 " B , ,C ",
   read_tech_tree_prerequisites_parsing.2 [⟨"A", "0", "d", " B , ,C "⟩]
     [("A", ⟨0, "d", ["B", "C"], []⟩)] (by decide)
     ("A", ⟨0, "d", ["B", "C"], []⟩) (by decide)⟩

/-- C9: duplicate Node names raise no error (the read succeeds whenever every
Tier cell parses), and the entry stored for a name comes from the last row of
the input with that Node cell. -/
theorem read_tech_tree_duplicate_last_write_wins :
    ∀ rows : List TechRow,
      ((∀ r ∈ rows, exceptIsOk (pyInt r.tier) = true) →
        ∃ tn, tech_rows_loop [] rows = Except.ok tn) ∧
      (∀ tn, tech_rows_loop [] rows = Except.ok tn → ∀ name,
        dictGet tn name =
          (lastRowNamed rows name).bind
            (fun r => (exceptToOption (pyInt r.tier)).map (rowNode r))) := by
  intro rows
  constructor
  · intro hall
    exact tech_rows_loop_ok rows [] hall
  · intro tn h name
    have hg := tech_rows_loop_get rows [] tn h name
    cases hl : lastRowNamed rows name with
    | some r =>
      rw [hl] at hg
      simpa [hl] using hg
    | none =>
      rw [hl] at hg
      simpa [hl, dictGet] using hg

/-- Witness for C9: two rows named A, the stored entry is from the second. -/
theorem read_tech_tree_duplicate_last_write_wins_witness :
    (∃ tn, tech_rows_loop []
      [(⟨"A", "0", "d1", ""⟩ : TechRow), ⟨"A", "1", "d2", "A,B"⟩] = Except.ok tn) ∧
    dictGet [("A", (⟨1, "d2", ["A", "B"], []⟩ : TechNode))] "A" =
      (lastRowNamed [(⟨"A", "0", "d1", ""⟩ : TechRow), ⟨"A", "1", "d2", "A,B"⟩] "A").bind
        (fun r => (exceptToOption (pyInt r.tier)).map (rowNode r)) :=
  ⟨(read_tech_tree_duplicate_last_write_wins
      [⟨"A", "0", "d1", ""⟩, ⟨"A", "1", "d2", "A,B"⟩]).1 (by decide),
   (read_tech_tree_duplicate_last_write_wins
      [⟨"A", "0", "d1", ""⟩, ⟨"A", "1", "d2", "A,B"⟩]).2
     [("A", ⟨1, "d2", ["A", "B"], []⟩)] (by decide) "A"⟩

lemma allParts_eq_nil (tn : TechDict) (h : ∀ kv ∈ tn, kv.2.parts = ([] : List PartItem)) :
    allParts tn = [] := by
  induction tn with
  | nil => rfl
  | cons kv rest ih =>
    have h1 := h kv (List.mem_cons_self kv rest)
    have h2 := ih (fun kv2 hkv2 => h kv2 (List.mem_cons_of_mem kv hkv2))
    simp [allParts, h1, h2]


lemma assignedB_appendPart (tn : TechDict) (k : String) (q p : PartItem) :
    assignedB (appendPart tn k q) p = assignedB tn p := by
  cases hp : p.tech_node with
  | none => simp [assignedB, hp]
  | some s => simp [assignedB, hp, appendPart, containsKey_dictModify]

lemma allParts_appendPart_perm (tn : TechDict) (k : String) (p : PartItem)
    (h : containsKey tn k = true) :
    (allParts (appendPart tn k p)).Perm (p :: allParts tn) := by
  induction tn with
  | nil => simp [containsKey] at h
  | cons kv rest ih =>
    by_cases hk : kv.1 = k
    · simp only [appendPart, dictModify, hk, beq_self_eq_true, if_true, allParts, addPart]
      rw [List.append_assoc]
      exact List.perm_middle
    · have h2 : containsKey rest k = true := by
        simpa [containsKey, beq_iff_eq, hk] using h
      simp only [appendPart, dictModify, beq_iff_eq, hk, if_false, allParts]
      exact ((ih h2).append_left kv.2.parts).trans List.perm_middle

lemma assign_loop_snd (ps : List PartItem) :
    ∀ tnA unA, (List.foldl assignStep (tnA, unA) ps).2 =
      unA ++ ps.filter (fun p => !(assignedB tnA p)) := by
  induction ps with
  | nil => intro tnA unA; simp
  | cons q ps ih =>
    intro tnA unA
    cases hq : q.tech_node with
    | none =>
      have hstep : assignStep (tnA, unA) q = (tnA, unA ++ [q]) := by
        simp [assignStep, hq]
      have hb : assignedB tnA q = false := by simp [assignedB, hq]
      simp only [List.foldl_cons, hstep, ih, List.filter_cons, hb]
      simp
    | some s =>
      by_cases hc : ((!(s == "")) && containsKey tnA s) = true
      · have hstep : assignStep (tnA, unA) q = (appendPart tnA s q, unA) := by
          simp [assignStep, hq, hc]
        have hb : assignedB tnA q = true := by simp [assignedB, hq, hc]
        have hfc : ps.filter (fun p => !(assignedB (appendPart tnA s q) p)) =
            ps.filter (fun p => !(assignedB tnA p)) :=
          List.filter_congr (fun p _ => by rw [assignedB_appendPart])
        simp only [List.foldl_cons, hstep, ih, hfc, List.filter_cons, hb]
        simp
      · have hc2 : ((!(s == "")) && containsKey tnA s) = false := by
          simpa using hc
        have hstep : assignStep (tnA, unA) q = (tnA, unA ++ [q]) := by
          simp [assignStep, hq, hc2]
        have hb : assignedB tnA q = false := by simp [assignedB, hq, hc2]
        simp only [List.foldl_cons, hstep, ih, List.filter_cons, hb]
        simp

lemma addParts_addPart (q : PartItem) (l : List PartItem) (n : TechNode) :
    addParts l (addPart q n) = addParts (q :: l) n := by
  simp [addParts, addPart]

lemma assign_loop_get (ps : List PartItem) :
    ∀ tnA unA k, dictGet ((List.foldl assignStep (tnA, unA) ps).1) k =
      (dictGet tnA k).map
        (addParts (ps.filter (fun p => assignedB tnA p && (p.tech_node == some k)))) := by
  induction ps with
  | nil =>
    intro tnA unA k
    cases hd : dictGet tnA k <;> simp [hd, addParts]
  | cons q ps ih =>
    intro tnA unA k
    cases hq : q.tech_node with
    | none =>
      have hstep : assignStep (tnA, unA) q = (tnA, unA ++ [q]) := by
        simp [assignStep, hq]
      have hfil : (q :: ps).filter (fun p => assignedB tnA p && (p.tech_node == some k)) =
          ps.filter (fun p => assignedB tnA p && (p.tech_node == some k)) := by
        have hb : (assignedB tnA q && (q.tech_node == some k)) = false := by
          simp [assignedB, hq]
        simp [List.filter_cons, hb]
      rw [List.foldl_cons, hstep, ih, hfil]
    | some s =>
      by_cases hc : ((!(s == "")) && containsKey tnA s) = true
      · have hstep : assignStep (tnA, unA) q = (appendPart tnA s q, unA) := by
          simp [assignStep, hq, hc]
        have hfc : ps.filter
              (fun p => assignedB (appendPart tnA s q) p && (p.tech_node == some k)) =
            ps.filter (fun p => assignedB tnA p && (p.tech_node == some k)) :=
          List.filter_congr (fun p _ => by rw [assignedB_appendPart])
        have hget : dictGet (appendPart tnA s q) k =
            if k = s then (dictGet tnA s).map (addPart q) else dictGet tnA k := by
          simp [appendPart, dictGet_dictModify]
        by_cases hk : k = s
        · have hb : (assignedB tnA q && (q.tech_node == some k)) = true := by
            simp [assignedB, hq, hc, hk]
          have hfil : (q :: ps).filter (fun p => assignedB tnA p && (p.tech_node == some k)) =
              q :: ps.filter (fun p => assignedB tnA p && (p.tech_node == some k)) := by
            simp [List.filter_cons, hb]
          rw [List.foldl_cons, hstep, ih, hfc, hget, if_pos hk, hfil, hk]
          cases hd : dictGet tnA s with
          | none => simp
          | some n => simp [addParts_addPart]
        · have hb : (assignedB tnA q && (q.tech_node == some k)) = false := by
            have hsk : ¬ s = k := fun h2 => hk h2.symm
            simp [hq, hsk]
          have hfil : (q :: ps).filter (fun p => assignedB tnA p && (p.tech_node == some k)) =
              ps.filter (fun p => assignedB tnA p && (p.tech_node == some k)) := by
            simp [List.filter_cons, hb]
          rw [List.foldl_cons, hstep, ih, hfc, hget, if_neg hk, hfil]
      · have hc2 : ((!(s == "")) && containsKey tnA s) = false := by
          simpa using hc
        have hstep : assignStep (tnA, unA) q = (tnA, unA ++ [q]) := by
          simp [assignStep, hq, hc2]
        have hfil : (q :: ps).filter (fun p => assignedB tnA p && (p.tech_node == some k)) =
            ps.filter (fun p => assignedB tnA p && (p.tech_node == some k)) := by
          have hb : (assignedB tnA q && (q.tech_node == some k)) = false := by
            simp [assignedB, hq, hc2]
          simp [List.filter_cons, hb]
        rw [List.foldl_cons, hstep, ih, hfil]

lemma assign_loop_perm (ps : List PartItem) :
    ∀ tnA unA,
      ((allParts (List.foldl assignStep (tnA, unA) ps).1) ++
        (List.foldl assignStep (tnA, unA) ps).2).Perm ((allParts tnA ++ unA) ++ ps) := by
  induction ps with
  | nil => intro tnA unA; simp
  | cons q ps ih =>
    intro tnA unA
    cases hq : q.tech_node with
    | none =>
      have hstep : assignStep (tnA, unA) q = (tnA, unA ++ [q]) := by
        simp [assignStep, hq]
      rw [List.foldl_cons, hstep]
      refine (ih tnA (unA ++ [q])).trans ?_
      have heq : (allParts tnA ++ (unA ++ [q])) ++ ps =
          (allParts tnA ++ unA) ++ (q :: ps) := by simp
      rw [heq]
    | some s =>
      by_cases hc : ((!(s == "")) && containsKey tnA s) = true
      · have hck : containsKey tnA s = true := by
          have hc3 := hc
          simp only [Bool.and_eq_true] at hc3
          exact hc3.2
        have hstep : assignStep (tnA, unA) q = (appendPart tnA s q, unA) := by
          simp [assignStep, hq, hc]
        have hperm := allParts_appendPart_perm tnA s q hck
        rw [List.foldl_cons, hstep]
        refine (ih (appendPart tnA s q) unA).trans ?_
        have h2 : ((allParts (appendPart tnA s q)) ++ unA ++ ps).Perm
            (((q :: allParts tnA) ++ unA) ++ ps) :=
          (hperm.append_right unA).append_right ps
        exact h2.trans List.perm_middle.symm
      · have hc2 : ((!(s == "")) && containsKey tnA s) = false := by
          simpa using hc
        have hstep : assignStep (tnA, unA) q = (tnA, unA ++ [q]) := by
          simp [assignStep, hq, hc2]
        rw [List.foldl_cons, hstep]
        refine (ih tnA (unA ++ [q])).trans ?_
        have heq : (allParts tnA ++ (unA ++ [q])) ++ ps =
            (allParts tnA ++ unA) ++ (q :: ps) := by simp
        rw [heq]

lemma frameRel_refl (parts : List PartItem) (a : String × TechNode) : FrameRel parts a a :=
  ⟨rfl, rfl, rfl, rfl, [], by simp, by simp⟩

lemma forall₂_frameRel_refl (parts : List PartItem) (l : TechDict) :
    List.Forall₂ (FrameRel parts) l l := by
  induction l with
  | nil => exact List.Forall₂.nil
  | cons a rest ih => exact List.Forall₂.cons (frameRel_refl parts a) ih

lemma frameRel_mono {ps1 ps2 : List PartItem} (h : ∀ q ∈ ps1, q ∈ ps2)
    {a b : String × TechNode} : FrameRel ps1 a b → FrameRel ps2 a b := by
  rintro ⟨h1, h2, h3, h4, extra, h5, h6⟩
  exact ⟨h1, h2, h3, h4, extra, h5, fun q hq => h q (h6 q hq)⟩

lemma frameRel_comp {ps : List PartItem} {a b c : String × TechNode} :
    FrameRel ps a b → FrameRel ps b c → FrameRel ps a c := by
  rintro ⟨h1, h2, h3, h4, e1, h5, h6⟩ ⟨g1, g2, g3, g4, e2, g5, g6⟩
  refine ⟨h1.trans g1, h2.trans g2, h3.trans g3, h4.trans g4, e1 ++ e2, ?_, ?_⟩
  · rw [g5, h5, List.append_assoc]
  · intro q hq
    rcases List.mem_append.mp hq with hh | hh
    · exact h6 q hh
    · exact g6 q hh

lemma forall₂_frameRel_comp {ps : List PartItem} :
    ∀ {x y z : TechDict}, List.Forall₂ (FrameRel ps) x y →
      List.Forall₂ (FrameRel ps) y z → List.Forall₂ (FrameRel ps) x z := by
  intro x y z h1
  induction h1 generalizing z with
  | nil => intro h2; cases h2; exact List.Forall₂.nil
  | cons hab h ih =>
    intro h2
    cases h2 with
    | cons hbc h2t => exact List.Forall₂.cons (frameRel_comp hab hbc) (ih h2t)

lemma appendPart_frame (tn : TechDict) (k : String) (p : PartItem) :
    List.Forall₂ (FrameRel [p]) tn (appendPart tn k p) := by
  induction tn with
  | nil => exact List.Forall₂.nil
  | cons kv rest ih =>
    by_cases hk : kv.1 = k
    · simp only [appendPart, dictModify, hk, beq_self_eq_true, if_true]
      refine List.Forall₂.cons ?_ (forall₂_frameRel_refl [p] rest)
      exact ⟨hk, rfl, rfl, rfl, [p], rfl, by simp⟩
    · simp only [appendPart, dictModify, beq_iff_eq, hk, if_false]
      exact List.Forall₂.cons (frameRel_refl [p] kv) ih

lemma assign_loop_frame (ps : List PartItem) :
    ∀ tnA unA, List.Forall₂ (FrameRel ps) tnA (List.foldl assignStep (tnA, unA) ps).1 := by
  induction ps with
  | nil => intro tnA unA; exact forall₂_frameRel_refl [] tnA
  | cons q ps ih =>
    intro tnA unA
    have hsub1 : ∀ x ∈ [q], x ∈ q :: ps := by
      intro x hx
      simp only [List.mem_singleton] at hx
      simp [hx]
    have hsub2 : ∀ x ∈ ps, x ∈ q :: ps := fun x hx => List.mem_cons_of_mem q hx
    cases hq : q.tech_node with
    | none =>
      have hstep : assignStep (tnA, unA) q = (tnA, unA ++ [q]) := by
        simp [assignStep, hq]
      rw [List.foldl_cons, hstep]
      exact (ih tnA (unA ++ [q])).imp (fun a b hab => frameRel_mono hsub2 hab)
    | some s =>
      by_cases hc : ((!(s == "")) && containsKey tnA s) = true
      · have hstep : assignStep (tnA, unA) q = (appendPart tnA s q, unA) := by
          simp [assignStep, hq, hc]
        rw [List.foldl_cons, hstep]
        have h1 : List.Forall₂ (FrameRel (q :: ps)) tnA (appendPart tnA s q) :=
          (appendPart_frame tnA s q).imp (fun a b hab => frameRel_mono hsub1 hab)
        have h2 : List.Forall₂ (FrameRel (q :: ps)) (appendPart tnA s q)
            (List.foldl assignStep (appendPart tnA s q, unA) ps).1 :=
          (ih (appendPart tnA s q) unA).imp (fun a b hab => frameRel_mono hsub2 hab)
        exact forall₂_frameRel_comp h1 h2
      · have hc2 : ((!(s == "")) && containsKey tnA s) = false := by
          simpa using hc
        have hstep : assignStep (tnA, unA) q = (tnA, unA ++ [q]) := by
          simp [assignStep, hq, hc2]
        rw [List.foldl_cons, hstep]
        exact (ih tnA (unA ++ [q])).imp (fun a b hab => frameRel_mono hsub2 hab)

/-- C1: when every node of the dict starts with an empty parts list (as
read_tech_tree always produces), the multiset of all parts stored in nodes
after assign_parts_to_nodes plus the returned unassigned list equals the
multiset of the input parts list, so each input part record ends up in
exactly one of the two destinations, exactly once. -/
theorem assign_parts_to_nodes_conservation (tech_nodes : TechDict) (parts : List PartItem)
    (h : ∀ kv ∈ tech_nodes, kv.2.parts = ([] : List PartItem)) :
    ((allParts (assign_parts_to_nodes tech_nodes parts).1 : Multiset PartItem) +
      ((assign_parts_to_nodes tech_nodes parts).2 : Multiset PartItem)) =
      (parts : Multiset PartItem) := by
  have hp := assign_loop_perm parts tech_nodes []
  rw [allParts_eq_nil tech_nodes h] at hp
  unfold assign_parts_to_nodes
  rw [Multiset.coe_add, Multiset.coe_eq_coe]
  simpa using hp

/-- Witness for C1 on a dict with one node and one assigned plus one
unassigned part. -/
theorem assign_parts_to_nodes_conservation_witness :
    (∀ kv ∈ [("A", (⟨0, "d", [], []⟩ : TechNode))], kv.2.parts = ([] : List PartItem)) ∧
    ((allParts (assign_parts_to_nodes [("A", ⟨0, "d", [], []⟩)]
        [(⟨"Eng", "E1", some "A", "S"⟩ : PartItem), ⟨"Fuel", "F1", none, ""⟩]).1 : Multiset PartItem) +
      ((assign_parts_to_nodes [("A", ⟨0, "d", [], []⟩)]
        [(⟨"Eng", "E1", some "A", "S"⟩ : PartItem), ⟨"Fuel", "F1", none, ""⟩]).2 : Multiset PartItem)) =
      ([(⟨"Eng", "E1", some "A", "S"⟩ : PartItem), ⟨"Fuel", "F1", none, ""⟩] : Multiset PartItem) :=
  ⟨by decide,
   assign_parts_to_nodes_conservation [("A", ⟨0, "d", [], []⟩)]
     [⟨"Eng", "E1", some "A", "S"⟩, ⟨"Fuel", "F1", none, ""⟩] (by decide)⟩

/-- Counterexample to C2 as stated: a part whose tech_node field is present
and equal to the key of an existing node (both the empty string after
stripping a whitespace-only cell) is NOT appended to that node, because the
condition of assign_parts_to_nodes tests Python truthiness of the string
first; the part lands in the unassigned list and the node stays empty. -/
theorem assign_parts_to_nodes_empty_key_counterexample :
    ((⟨"Engine", "E1", some "", "Small"⟩ : PartItem).tech_node = some "" ∧
      containsKey [("", (⟨0, "d", [], []⟩ : TechNode))] "" = true) ∧
    (assign_parts_to_nodes [("", ⟨0, "d", [], []⟩)] [⟨"Engine", "E1", some "", "Small"⟩]).2 =
      [⟨"Engine", "E1", some "", "Small"⟩] ∧
    (assign_parts_to_nodes [("", ⟨0, "d", [], []⟩)] [⟨"Engine", "E1", some "", "Small"⟩]).1 =
      [("", ⟨0, "d", [], []⟩)] := by
  decide

/-- C2 (amended): a part is appended to the parts list of node k exactly when
its tech_node field is present, nonempty, and equal to the key k of the
mapping; every other part is appended to the unassigned list; relative input
order is preserved in every destination (both sides are filters of the input
list). -/
theorem assign_parts_to_nodes_routing (tech_nodes : TechDict) (parts : List PartItem) :
    (assign_parts_to_nodes tech_nodes parts).2 =
      parts.filter (fun p => !(assignedB tech_nodes p)) ∧
    ∀ k, dictGet (assign_parts_to_nodes tech_nodes parts).1 k =
      (dictGet tech_nodes k).map
        (addParts (parts.filter
          (fun p => assignedB tech_nodes p && (p.tech_node == some k)))) := by
  constructor
  · have hs := assign_loop_snd parts tech_nodes []
    simpa [assign_parts_to_nodes] using hs
  · intro k
    have hg := assign_loop_get parts tech_nodes [] k
    simpa [assign_parts_to_nodes] using hg

/-- Counterexample to C7 as stated: a Tech Node cell holding only whitespace
strips to the empty string and is stored as that string, not as the absent
value None. -/
theorem parts_tech_node_whitespace_counterexample :
    (partOfRow ⟨"Engine", "E1", " ", ""⟩).tech_node = some "" ∧
    (partOfRow ⟨"Engine", "E1", " ", ""⟩).tech_node ≠ none := by
  decide

/-- C7 (amended): the stored tech_node field is None exactly for an empty
Tech Node cell and the stripped cell otherwise (so a whitespace-only cell is
stored as the empty string, not as None); in either case a part whose cell
strips to empty is routed to the unassigned list by assign_parts_to_nodes,
whose condition treats the empty string like None. -/
theorem parts_tech_node_normalization (r : PartRow) :
    (partOfRow r).tech_node =
      (if r.techNode = "" then none else some (pyStrip r.techNode)) ∧
    (∀ tech_nodes parts, pyStrip r.techNode = "" → partOfRow r ∈ parts →
      partOfRow r ∈ (assign_parts_to_nodes tech_nodes parts).2) := by
  constructor
  · by_cases h : r.techNode = "" <;> simp [partOfRow, h]
  · intro tn parts hstrip hmem
    have hsnd := assign_loop_snd parts tn []
    have hna : assignedB tn (partOfRow r) = false := by
      by_cases h : r.techNode = ""
      · simp [assignedB, partOfRow, h]
      · simp [assignedB, partOfRow, h, hstrip]
    unfold assign_parts_to_nodes
    rw [hsnd]
    simp only [List.nil_append]
    exact List.mem_filter.mpr ⟨hmem, by simp [hna]⟩

/-- Witness for C7 (amended) on a whitespace-only Tech Node cell. -/
theorem parts_tech_node_normalization_witness :
    ((partOfRow ⟨"Fuel", "F1", " ", ""⟩).tech_node =
      (if (" " : String) = "" then none else some (pyStrip " "))) ∧
    partOfRow ⟨"Fuel", "F1", " ", ""⟩ ∈
      (assign_parts_to_nodes [("A", (⟨0, "d", [], []⟩ : TechNode))]
        [partOfRow ⟨"Fuel", "F1", " ", ""⟩]).2 :=
  ⟨(parts_tech_node_normalization ⟨"Fuel", "F1", " ", ""⟩).1,
   (parts_tech_node_normalization ⟨"Fuel", "F1", " ", ""⟩).2
     [("A", ⟨0, "d", [], []⟩)] [partOfRow ⟨"Fuel", "F1", " ", ""⟩] (by decide) (by decide)⟩

/-- C10: assign_parts_to_nodes preserves the key list of the dict entry by
entry (hence its key set and order) together with every tier, description and
prerequisites field; its only effect on a node is appending records of the
input parts list to the parts list, and every returned unassigned record is a
record of the input parts list (no record is invented or rewritten). -/
theorem assign_parts_to_nodes_frame (tech_nodes : TechDict) (parts : List PartItem) :
    List.Forall₂ (FrameRel parts) tech_nodes (assign_parts_to_nodes tech_nodes parts).1 ∧
    ∀ q ∈ (assign_parts_to_nodes tech_nodes parts).2, q ∈ parts := by
  constructor
  · exact assign_loop_frame parts tech_nodes []
  · intro q hq
    have hs := assign_loop_snd parts tech_nodes []
    rw [assign_parts_to_nodes] at hq
    rw [hs] at hq
    simp only [List.nil_append] at hq
    exact (List.mem_filter.mp hq).1

/-- Witness for C10 on a one-node dict and a single unassigned part. -/
theorem assign_parts_to_nodes_frame_witness :
    List.Forall₂ (FrameRel [(⟨"Fuel", "F1", none, ""⟩ : PartItem)])
      [("A", (⟨0, "d", [], []⟩ : TechNode))]
      (assign_parts_to_nodes [("A", ⟨0, "d", [], []⟩)] [⟨"Fuel", "F1", none, ""⟩]).1 ∧
    (⟨"Fuel", "F1", none, ""⟩ : PartItem) ∈ [(⟨"Fuel", "F1", none, ""⟩ : PartItem)] :=
  ⟨(assign_parts_to_nodes_frame [("A", ⟨0, "d", [], []⟩)] [⟨"Fuel", "F1", none, ""⟩]).1,
   (assign_parts_to_nodes_frame [("A", ⟨0, "d", [], []⟩)] [⟨"Fuel", "F1", none, ""⟩]).2
     ⟨"Fuel", "F1", none, ""⟩ (by decide)⟩

lemma containsKey_of_mem {α : Type} {m : List (String × α)} {kv : String × α}
    (h : kv ∈ m) : containsKey m kv.1 = true := by
  induction m with
  | nil => simp at h
  | cons a rest ih =>
    rcases List.mem_cons.mp h with rfl | h2
    · simp [containsKey]
    · simp [containsKey, ih h2]

/-- C3: an edge (p, q) is emitted by the edge loop of create_tech_tree_graph
exactly when q is a node of the dict whose prerequisites list holds p and p
is itself a key of the dict; consequently both endpoints of every emitted
edge are keys, and a dangling prerequisite name produces no edge and no
error. -/
theorem create_tech_tree_graph_edges_valid (tech_nodes : TechDict) (p q : String) :
    ((p, q) ∈ create_tech_tree_edges tech_nodes ↔
      ∃ node, (q, node) ∈ tech_nodes ∧ p ∈ node.prerequisites ∧
        containsKey tech_nodes p = true) ∧
    ((p, q) ∈ create_tech_tree_edges tech_nodes →
      containsKey tech_nodes p = true ∧ containsKey tech_nodes q = true) := by
  have hmem : (p, q) ∈ create_tech_tree_edges tech_nodes ↔
      ∃ kv, kv ∈ tech_nodes ∧ kv.1 = q ∧ p ∈ kv.2.prerequisites ∧
        containsKey tech_nodes p = true := by
    unfold create_tech_tree_edges node_prereq_edges
    rw [mem_concatAll]
    constructor
    · rintro ⟨l, hl, hpl⟩
      rcases List.mem_map.mp hl with ⟨kv, hkv, rfl⟩
      rcases List.mem_map.mp hpl with ⟨x, hx, hxe⟩
      have hx1 : x = p := congrArg Prod.fst hxe
      have hx2 : kv.1 = q := congrArg Prod.snd hxe
      subst hx1
      rcases List.mem_filter.mp hx with ⟨hxp, hxc⟩
      exact ⟨kv, hkv, hx2, hxp, hxc⟩
    · rintro ⟨kv, hkv, hq, hp, hck⟩
      refine ⟨_, List.mem_map.mpr ⟨kv, hkv, rfl⟩, ?_⟩
      exact List.mem_map.mpr ⟨p, List.mem_filter.mpr ⟨hp, hck⟩, by rw [hq]⟩
  constructor
  · rw [hmem]
    constructor
    · rintro ⟨kv, hkv, hq, hp, hck⟩
      exact ⟨kv.2, by rw [← hq]; simpa using hkv, hp, hck⟩
    · rintro ⟨node, hnode, hp, hck⟩
      exact ⟨(q, node), hnode, rfl, hp, hck⟩
  · intro h
    rcases hmem.mp h with ⟨kv, hkv, hq, hp, hck⟩
    exact ⟨hck, hq ▸ containsKey_of_mem hkv⟩

/-- Witness for C3: in a two-node dict where B requires A and the dangling
name Z, the emitted edge (A, B) has both endpoints as keys. -/
theorem create_tech_tree_graph_edges_valid_witness :
    containsKey [("A", (⟨0, "d", [], []⟩ : TechNode)),
      ("B", ⟨1, "d", ["A", "Z"], []⟩)] "A" = true ∧
    containsKey [("A", (⟨0, "d", [], []⟩ : TechNode)),
      ("B", ⟨1, "d", ["A", "Z"], []⟩)] "B" = true :=
  (create_tech_tree_graph_edges_valid
    [("A", ⟨0, "d", [], []⟩), ("B", ⟨1, "d", ["A", "Z"], []⟩)] "A" "B").2 (by decide)

/-- C4: the per-node label path of create_tech_tree_graph renders a part with
empty size as its bullet line with no parenthetical suffix; the
unassigned-cluster label path, as written in the source, never produces a
label at all: it raises NameError on the undefined name size_str (and its
size test calls a method that does not exist on str), so the claimed
no-suffix unassigned label is the documented intent while the code errors. -/
theorem empty_size_label_paths :
    (∀ p : PartItem, p.size = "" →
      node_part_label p = "<BR/>  • " ++ html_escape p.name) ∧
    (∀ p : PartItem, unassigned_part_label p =
      Except.error "NameError: name size_str is not defined") := by
  constructor
  · intro p h
    simp [node_part_label, h]
  · intro p
    rfl

/-- Witness for C4 on the empty-size part F1. -/
theorem empty_size_label_paths_witness :
    node_part_label ⟨"Fuel", "F1", none, ""⟩ = "<BR/>  • " ++ html_escape "F1" ∧
    unassigned_part_label ⟨"Fuel", "F1", none, ""⟩ =
      Except.error "NameError: name size_str is not defined" :=
  ⟨empty_size_label_paths.1 ⟨"Fuel", "F1", none, ""⟩ rfl,
   empty_size_label_paths.2 ⟨"Fuel", "F1", none, ""⟩⟩

/-- C6: both loaders follow the three-way resolution chain of spec_resolve:
a data source with a recognized remote scheme prefix is fetched and the
fetched text parsed, else an existing file of that name is read and parsed,
else the data source string itself is parsed as TSV text. -/
theorem source_resolution_chain (env : WorldEnv) (data_source : String) :
    read_tech_tree env data_source =
      (spec_resolve env data_source).bind read_tech_tree_text ∧
    read_parts_catalog env data_source =
      (spec_resolve env data_source).bind read_parts_text := by
  constructor
  · unfold read_tech_tree spec_resolve
    by_cases h : (data_source.startsWith "http://" || data_source.startsWith "https://") = true
    · simp only [h]
      cases env.fetch data_source <;> rfl
    · have h2 : (data_source.startsWith "http://" || data_source.startsWith "https://") = false := by
        simpa using h
      simp only [h2]
      cases env.files data_source <;> rfl
  · unfold read_parts_catalog spec_resolve
    by_cases h : (data_source.startsWith "http://" || data_source.startsWith "https://") = true
    · simp only [h]
      cases env.fetch data_source <;> rfl
    · have h2 : (data_source.startsWith "http://" || data_source.startsWith "https://") = false := by
        simpa using h
      simp only [h2]
      cases env.files data_source <;> rfl
